import Mathlib

/-!
Verification of the vision-interpretation and rule-derivation pipeline of the
eZansiEdgeAI agent-orchestration tools (`tools/agent-orchestration/*.py`).

The Python sources are shallowly embedded: strings are modelled as `List Char`
(via `String.data`), Python's `str.count`, `in` (substring), `str.strip`,
`str.split`, `str.lower` and the specific regular expressions used by the code
are modelled by executable Lean functions, and the pipeline's pure derivation
functions are translated definition-by-definition.
-/

namespace Ezansi

/-- Python's `\s` whitespace class (`str.strip` uses the same set). -/
def pyIsSpace (c : Char) : Bool :=
  c = ' ' || c = '\t' || c = '\n' || c = '\r' || c = Char.ofNat 11 || c = Char.ofNat 12

/-- Lowercasing a character sequence, modelling Python's `str.lower` on the
ASCII range (all keywords tested by the pipeline are ASCII). -/
def lowerL (s : List Char) : List Char := s.map Char.toLower

/-- Python's `str.strip()`: remove leading and trailing whitespace. -/
def pyStrip (s : List Char) : List Char :=
  ((s.dropWhile pyIsSpace).reverse.dropWhile pyIsSpace).reverse

/-- Python's `sub in s` substring test. -/
def containsSub (s pat : List Char) : Bool :=
  match s with
  | [] => pat.isEmpty
  | _ :: rest => pat.isPrefixOf s || containsSub rest pat

/-- Fuel-indexed scan for `countOcc`; structural recursion on the fuel so the
definition reduces inside the kernel.  A fuel of `s.length` always suffices,
because the scan consumes at least one character per step. -/
def countOccAux (fuel : Nat) (s pat : List Char) : Nat :=
  match fuel, s with
  | 0, _ => 0
  | _, [] => 0
  | fuel + 1, c :: rest =>
    if pat.isPrefixOf (c :: rest) then 1 + countOccAux fuel (rest.drop (pat.length - 1)) pat
    else countOccAux fuel rest pat

/-- Python's `s.count(sub)`: number of non-overlapping occurrences, scanning
left to right (on a match the scan skips past the matched occurrence). -/
def countOcc (s pat : List Char) : Nat := countOccAux s.length s pat

theorem isPrefixOf_spec (pat s : List Char) :
    pat.isPrefixOf s = true ↔ ∃ t, s = pat ++ t := by
  induction pat generalizing s with
  | nil => simp [List.isPrefixOf]
  | cons a pa ih =>
    cases s with
    | nil => simp [List.isPrefixOf]
    | cons b sb =>
      simp only [List.isPrefixOf, Bool.and_eq_true, beq_iff_eq, ih, List.cons_append,
        List.cons.injEq]
      constructor
      · rintro ⟨rfl, t, rfl⟩; exact ⟨t, rfl, rfl⟩
      · rintro ⟨t, rfl, rfl⟩; exact ⟨rfl, t, rfl⟩

theorem containsSub_spec (s pat : List Char) :
    containsSub s pat = true ↔ ∃ u v, s = u ++ pat ++ v := by
  induction s with
  | nil =>
    simp only [containsSub, List.isEmpty_iff]
    constructor
    · rintro rfl; exact ⟨[], [], rfl⟩
    · rintro ⟨u, v, h⟩
      rcases List.append_eq_nil.mp h.symm with ⟨h1, h2⟩
      exact (List.append_eq_nil.mp h1).2
  | cons c rest ih =>
    simp only [containsSub, Bool.or_eq_true, isPrefixOf_spec, ih]
    constructor
    · rintro (⟨t, ht⟩ | ⟨u, v, hv⟩)
      · exact ⟨[], t, by simp [ht]⟩
      · exact ⟨c :: u, v, by simp [hv]⟩
    · rintro ⟨u, v, huv⟩
      cases u with
      | nil => exact Or.inl ⟨v, by simpa using huv⟩
      | cons a u' =>
        simp only [List.cons_append, List.cons.injEq] at huv
        exact Or.inr ⟨u', v, huv.2⟩

theorem containsSub_of_middle {h pat : List Char} (x y : List Char)
    (hs : containsSub h pat = true) : containsSub (x ++ h ++ y) pat = true := by
  rw [containsSub_spec] at hs ⊢
  obtain ⟨u, v, rfl⟩ := hs
  exact ⟨x ++ u, v ++ y, by simp⟩

/-! ### Domain classification (`MasterAgent._infer_domain`)

The Python code builds an insertion-ordered dict of scores and takes
`max(domain_scores.items(), key=lambda x: x[1])`.  CPython's `max` keeps the
first item whose key is maximal (it replaces the running maximum only on a
strictly greater key), which `pyMax1` reproduces. -/

/-- Running-maximum fold of CPython's `max(..., key=lambda x: x[1])` over a
nonempty list `p :: l`: ties keep the earlier element. -/
def pyMax1 (p : String × Nat) : List (String × Nat) → String × Nat
  | [] => p
  | q :: rest => pyMax1 (if p.2 < q.2 then q else p) rest

theorem pyMax1_spec (l : List (String × Nat)) (p r : String × Nat)
    (hr : pyMax1 p l = r) :
    (r = p ∧ ∀ q ∈ l, q.2 ≤ p.2) ∨
    (∃ l1 l2, l = l1 ++ r :: l2 ∧ p.2 < r.2 ∧
      (∀ q ∈ l1, q.2 < r.2) ∧ (∀ q ∈ l2, q.2 ≤ r.2)) := by
  induction l generalizing p with
  | nil => exact Or.inl ⟨hr.symm, by simp⟩
  | cons q rest ih =>
    by_cases hpq : p.2 < q.2
    · rw [show pyMax1 p (q :: rest) = pyMax1 q rest by simp [pyMax1, if_pos hpq]] at hr
      rcases ih q hr with ⟨heq, hle⟩ | ⟨l1, l2, hdec, hlt, h1, h2⟩
      · refine Or.inr ⟨[], rest, by simp [heq], by rw [heq]; exact hpq, by simp, ?_⟩
        intro x hx; rw [heq]; exact hle x hx
      · refine Or.inr ⟨q :: l1, l2, by rw [hdec, List.cons_append], lt_trans hpq hlt, ?_, h2⟩
        intro x hx
        rcases List.mem_cons.mp hx with rfl | hx'
        · exact hlt
        · exact h1 x hx'
    · rw [show pyMax1 p (q :: rest) = pyMax1 p rest by simp [pyMax1, if_neg hpq]] at hr
      push_neg at hpq
      rcases ih p hr with ⟨heq, hle⟩ | ⟨l1, l2, hdec, hlt, h1, h2⟩
      · refine Or.inl ⟨heq, ?_⟩
        intro x hx
        rcases List.mem_cons.mp hx with rfl | hx'
        · exact hpq
        · exact hle x hx'
      · refine Or.inr ⟨q :: l1, l2, by rw [hdec, List.cons_append], hlt, ?_, h2⟩
        intro x hx
        rcases List.mem_cons.mp hx with rfl | hx'
        · exact lt_of_le_of_lt hpq hlt
        · exact h1 x hx'

/-- The fixed domain lexicon of `MasterAgent._infer_domain`, in declaration
order of the Python dict literal. -/
def domainKeywords : List (String × List String) :=
  [ ("education", ["learn", "student", "course", "teach", "education"]),
    ("healthcare", ["health", "medical", "patient", "clinical", "hospital"]),
    ("finance", ["financial", "banking", "payment", "transaction", "trading"]),
    ("ecommerce", ["shop", "product", "cart", "checkout", "order"]),
    ("social", ["social", "community", "connect", "share", "network"]),
    ("iot", ["device", "sensor", "embedded", "hardware", "iot"]),
    ("enterprise", ["business", "enterprise", "organization", "workflow"]),
    ("gaming", ["game", "player", "level", "score", "gameplay"]),
    ("media", ["content", "video", "stream", "media", "publish"]) ]

/-- `sum(content_lower.count(kw) for kw in keywords)`. -/
def domainScore (content : String) (kws : List String) : Nat :=
  (kws.map (fun kw => countOcc (lowerL content.data) kw.data)).sum

/-- One entry of the `domain_scores` dict: `domain_scores[domain] = score`. -/
def scoreEntry (content : String) (p : String × List String) : String × Nat :=
  (p.1, domainScore content p.2)

/-- The insertion-ordered `domain_scores.items()` list. -/
def domainScores (content : String) : List (String × Nat) :=
  domainKeywords.map (scoreEntry content)

/-- `MasterAgent._infer_domain`: stable argmax over the score table; returns
`general` when the top score is 0.  (`domainScores` is statically nonempty, so
`headI`/`tail` faithfully split Python's nonempty iterable for `max`.) -/
def inferDomain (content : String) : String :=
  let scores := domainScores content
  let top := pyMax1 scores.headI scores.tail
  if 0 < top.2 then top.1 else "general"

theorem map_eq_append_cons {α β : Type} (f : α → β) (l : List α) (l1 l2 : List β) (x : β)
    (h : l.map f = l1 ++ x :: l2) :
    ∃ m1 a m2, l = m1 ++ a :: m2 ∧ l1 = m1.map f ∧ x = f a ∧ l2 = m2.map f := by
  induction l generalizing l1 with
  | nil => simp at h
  | cons a t ih =>
    cases l1 with
    | nil =>
      simp only [List.map_cons, List.nil_append, List.cons.injEq] at h
      exact ⟨[], a, t, rfl, rfl, h.1.symm, h.2.symm⟩
    | cons y l1' =>
      simp only [List.map_cons, List.cons_append, List.cons.injEq] at h
      obtain ⟨m1, b, m2, hdec, h1, h2, h3⟩ := ih l1' h.2
      exact ⟨a :: m1, b, m2, by simp [hdec], by simp [h.1, h1], h2, h3⟩

/-- C1: For every input document text, `MasterAgent._infer_domain` returns
`general` if and only if every domain's keyword score (sum of case-insensitive
substring occurrence counts of that domain's keywords) is exactly 0; otherwise
it returns a domain with maximal score such that every domain declared earlier
in the lexicon table has a strictly smaller score (so that on ties the domain
declared earliest wins). -/
theorem inferDomain_general_iff_first_argmax (content : String) :
    (inferDomain content = "general" ↔
      ∀ p ∈ domainKeywords, domainScore content p.2 = 0) ∧
    ((∃ p ∈ domainKeywords, domainScore content p.2 ≠ 0) →
      ∃ l1 kws l2, domainKeywords = l1 ++ (inferDomain content, kws) :: l2 ∧
        0 < domainScore content kws ∧
        (∀ q ∈ l1, domainScore content q.2 < domainScore content kws) ∧
        (∀ q ∈ l2, domainScore content q.2 ≤ domainScore content kws)) := by
  obtain ⟨hd, tl, hdk⟩ : ∃ hd tl, domainKeywords = hd :: tl := ⟨_, _, rfl⟩
  have hgen : ∀ p ∈ domainKeywords, p.1 ≠ "general" := by decide
  have hscores : domainScores content =
      scoreEntry content hd :: tl.map (scoreEntry content) := by
    rw [domainScores, hdk, List.map_cons]
  set top := pyMax1 (scoreEntry content hd) (tl.map (scoreEntry content)) with htop
  have hid : inferDomain content = if 0 < top.2 then top.1 else "general" := by
    simp only [inferDomain, hscores, List.headI, List.tail_cons, htop]
  have hspec := pyMax1_spec (tl.map (scoreEntry content)) (scoreEntry content hd) top htop.symm
  by_cases hpos : 0 < top.2
  · have hido : inferDomain content = top.1 := by rw [hid, if_pos hpos]
    have hmem : ∃ p ∈ domainKeywords, scoreEntry content p = top := by
      rcases hspec with ⟨heq, _⟩ | ⟨l1, l2, hdec, _, _, _⟩
      · exact ⟨hd, by rw [hdk]; exact List.mem_cons_self _ _, heq.symm⟩
      · have htm : top ∈ tl.map (scoreEntry content) := by
          rw [hdec]; exact List.mem_append_right _ (List.mem_cons_self _ _)
        obtain ⟨p, hp, hpe⟩ := List.mem_map.mp htm
        exact ⟨p, by rw [hdk]; exact List.mem_cons_of_mem _ hp, hpe⟩
    obtain ⟨pw, hpw, hpwe⟩ := hmem
    constructor
    · constructor
      · intro hgeq
        have hpw1 : pw.1 = "general" := by
          rw [← hpwe] at hido
          rw [hido] at hgeq
          exact hgeq
        exact absurd hpw1 (hgen pw hpw)
      · intro hall
        have hz : top.2 = 0 := by
          rw [← hpwe]
          exact hall pw hpw
        omega
    · intro _
      rcases hspec with ⟨heq, hle⟩ | ⟨l1, l2, hdec, hlt, h1, h2⟩
      · refine ⟨[], hd.2, tl, ?_, ?_, by simp, ?_⟩
        · rw [hdk, List.nil_append]
          have hfst : inferDomain content = hd.1 := by rw [hido, heq]; rfl
          rw [hfst]
        · have h2' : top.2 = domainScore content hd.2 := by rw [heq]; rfl
          rw [← h2']; exact hpos
        · intro q hq
          have := hle (scoreEntry content q) (List.mem_map_of_mem _ hq)
          have h2' : top.2 = domainScore content hd.2 := by rw [heq]; rfl
          simpa [scoreEntry] using this
      · obtain ⟨m1, a, m2, htl, hl1, htopa, hl2⟩ :=
          map_eq_append_cons (scoreEntry content) tl l1 l2 top hdec
        have hfst : inferDomain content = a.1 := by rw [hido, htopa]; rfl
        have hsnd : top.2 = domainScore content a.2 := by rw [htopa]; rfl
        refine ⟨hd :: m1, a.2, m2, ?_, ?_, ?_, ?_⟩
        · rw [hdk, htl, hfst, List.cons_append]
        · rw [← hsnd]; exact hpos
        · intro q hq
          rcases List.mem_cons.mp hq with rfl | hq'
          · rw [← hsnd]; exact hlt
          · have := h1 (scoreEntry content q) (by rw [hl1]; exact List.mem_map_of_mem _ hq')
            rw [← hsnd]
            simpa [scoreEntry] using this
        · intro q hq
          have := h2 (scoreEntry content q) (by rw [hl2]; exact List.mem_map_of_mem _ hq)
          rw [← hsnd]
          simpa [scoreEntry] using this
  · have htz : top.2 = 0 := by omega
    have hido : inferDomain content = "general" := by rw [hid, if_neg hpos]
    have hall : ∀ p ∈ domainKeywords, domainScore content p.2 = 0 := by
      intro p hp
      rw [hdk] at hp
      rcases hspec with ⟨heq, hle⟩ | ⟨l1, l2, hdec, hlt, h1, h2⟩
      · have hhd : domainScore content hd.2 = 0 := by
          have : (scoreEntry content hd).2 = 0 := by rw [← heq]; exact htz
          simpa [scoreEntry] using this
        rcases List.mem_cons.mp hp with rfl | hptl
        · exact hhd
        · have := hle (scoreEntry content p) (List.mem_map_of_mem _ hptl)
          simp only [scoreEntry] at this
          omega
      · rw [htz] at hlt
        omega
    refine ⟨⟨fun _ => hall, fun _ => hido⟩, ?_⟩
    rintro ⟨p, hp, hne⟩
    exact absurd (hall p hp) hne

/-! ### Substring barrier lemmas

A match of `pat` inside `x ++ c :: y` that cannot contain the character `c`
lies entirely inside `x` or entirely inside `y`.  These lemmas let us reason
about Python's `'kw' in str(list_of_strings)` test, where the stringified list
separates elements with quote/comma/space characters that never occur in the
searched keyword. -/

theorem containsSub_nil_iff (pat : List Char) :
    containsSub [] pat = true ↔ pat = [] := by
  simp [containsSub, List.isEmpty_iff]

theorem containsSub_of_isPrefixOf {pat s : List Char} (h : pat.isPrefixOf s = true) :
    containsSub s pat = true := by
  cases s with
  | nil =>
    simp only [containsSub, List.isEmpty_iff]
    obtain ⟨t, ht⟩ := (isPrefixOf_spec pat []).mp h
    exact (List.append_eq_nil.mp ht.symm).1
  | cons c rest => simp [containsSub, h]

theorem containsSub_cons_of {s pat : List Char} (a : Char) (h : containsSub s pat = true) :
    containsSub (a :: s) pat = true := by
  cases s with
  | nil =>
    rw [containsSub_nil_iff] at h
    subst h
    exact containsSub_of_isPrefixOf (by simp [List.isPrefixOf])
  | cons b br =>
    have hun : containsSub (a :: b :: br) pat =
        (pat.isPrefixOf (a :: b :: br) || containsSub (b :: br) pat) := rfl
    rw [hun, Bool.or_eq_true]
    exact Or.inr h

theorem append_eq_barrier {pat v x y : List Char} {c : Char} (hc : c ∉ pat)
    (h : pat ++ v = x ++ c :: y) : ∃ t, x = pat ++ t := by
  induction pat generalizing x with
  | nil => exact ⟨x, by simp⟩
  | cons p pr ih =>
    cases x with
    | nil =>
      simp only [List.cons_append, List.nil_append, List.cons.injEq] at h
      exact absurd (h.1 ▸ List.mem_cons_self p pr) hc
    | cons a xr =>
      simp only [List.cons_append, List.cons.injEq] at h
      obtain ⟨t, ht⟩ := ih (fun hm => hc (List.mem_cons_of_mem _ hm)) h.2
      exact ⟨t, by rw [h.1, ht, List.cons_append]⟩

theorem sub_barrier {pat : List Char} {c : Char} (hc : c ∉ pat) (x y : List Char)
    (h : containsSub (x ++ c :: y) pat = true) :
    containsSub x pat = true ∨ containsSub y pat = true := by
  induction x with
  | nil =>
    simp only [List.nil_append, containsSub, Bool.or_eq_true] at h
    rcases h with h | h
    · obtain ⟨t, ht⟩ := (isPrefixOf_spec _ _).mp h
      cases pat with
      | nil => exact Or.inl ((containsSub_nil_iff []).mpr rfl)
      | cons p pr =>
        simp only [List.cons_append, List.cons.injEq] at ht
        exact absurd (ht.1 ▸ List.mem_cons_self p pr) hc
    · exact Or.inr h
  | cons a xr ih =>
    rw [List.cons_append] at h
    simp only [containsSub, Bool.or_eq_true] at h
    rcases h with h | h
    · obtain ⟨t, ht⟩ := (isPrefixOf_spec _ _).mp h
      rw [← List.cons_append] at ht
      obtain ⟨t', ht'⟩ := append_eq_barrier hc ht.symm
      exact Or.inl (containsSub_of_isPrefixOf ((isPrefixOf_spec _ _).mpr ⟨t', ht'⟩))
    · rcases ih h with hx | hy
      · exact Or.inl (containsSub_cons_of a hx)
      · exact Or.inr hy

/-! ### Python `str(list)` (`str(self.vision_data.get('architecture_hints', []))`)

`MasterAgent._domain_specific_agents` tests `'mobile' in str(hints).lower()`.
`pyStrList` models CPython's `str` of a list of strings: elements joined by
`', '`, each wrapped in single quotes, the whole in brackets.  (Python's
`repr` quote-switching and escaping for strings containing quote, backslash or
control characters is not modelled: escaping inserts backslashes and never
creates or removes an occurrence of a purely alphabetic keyword such as
`mobile` or `api`.) -/

/-- The single-quote character `'`. -/
def qc : Char := Char.ofNat 39

/-- Comma-space-joined, quote-wrapped element list of Python's `str(list)`. -/
def wrapConcat : List (List Char) → List Char
  | [] => []
  | [h] => qc :: h ++ [qc]
  | h :: rest => qc :: h ++ qc :: ',' :: ' ' :: wrapConcat rest

/-- Python's `str` of a list of strings. -/
def pyStrList (hints : List (List Char)) : List Char :=
  match hints with
  | [] => ['[', ']']
  | _ => '[' :: wrapConcat hints ++ [']']

theorem wrapConcat_middle {h : List Char} {hints : List (List Char)} (hmem : h ∈ hints) :
    ∃ x y, wrapConcat hints = x ++ h ++ y := by
  induction hints with
  | nil => exact absurd hmem (List.not_mem_nil h)
  | cons hh rest ih =>
    rcases List.mem_cons.mp hmem with rfl | hmem'
    · cases rest with
      | nil => exact ⟨[qc], [qc], by simp [wrapConcat]⟩
      | cons r rs =>
        exact ⟨[qc], qc :: ',' :: ' ' :: wrapConcat (r :: rs), by simp [wrapConcat]⟩
    · obtain ⟨x, y, hxy⟩ := ih hmem'
      cases rest with
      | nil => exact absurd hmem' (List.not_mem_nil h)
      | cons r rs =>
        exact ⟨qc :: hh ++ qc :: ',' :: ' ' :: x, y, by simp [wrapConcat, hxy]⟩

theorem pyStrList_sub_of_mem {h pat : List Char} {hints : List (List Char)}
    (hmem : h ∈ hints) (hsub : containsSub h pat = true) :
    containsSub (pyStrList hints) pat = true := by
  obtain ⟨x, y, hxy⟩ := wrapConcat_middle hmem
  cases hints with
  | nil => exact absurd hmem (List.not_mem_nil h)
  | cons hh rest =>
    have := containsSub_of_middle ('[' :: x) (y ++ [']']) hsub
    simpa [pyStrList, hxy, List.append_assoc] using this

theorem wrapConcat_not_sub {pat : List Char} (hne : pat ≠ [])
    (hq : qc ∉ pat) (hcm : ',' ∉ pat) (hsp : ' ' ∉ pat) :
    ∀ hints : List (List Char), (∀ h ∈ hints, containsSub h pat = false) →
      containsSub (wrapConcat hints) pat = false := by
  intro hints
  induction hints with
  | nil =>
    intro _
    rw [wrapConcat, Bool.eq_false_iff]
    intro hcon
    exact hne ((containsSub_nil_iff pat).mp hcon)
  | cons hh rest ih =>
    intro hh'
    rw [Bool.eq_false_iff]
    intro hcon
    cases rest with
    | nil =>
      have h1 := sub_barrier hq [] (hh ++ [qc]) (by simpa [wrapConcat] using hcon)
      rcases h1 with h1 | h1
      · exact hne ((containsSub_nil_iff pat).mp h1)
      · rcases sub_barrier hq hh [] (by simpa using h1) with h2 | h2
        · exact absurd h2 (by simp [hh' hh (List.mem_cons_self _ _)])
        · exact hne ((containsSub_nil_iff pat).mp h2)
    | cons r rs =>
      have h1 := sub_barrier hq [] (hh ++ qc :: ',' :: ' ' :: wrapConcat (r :: rs))
        (by simpa [wrapConcat] using hcon)
      rcases h1 with h1 | h1
      · exact hne ((containsSub_nil_iff pat).mp h1)
      · rcases sub_barrier hq hh (',' :: ' ' :: wrapConcat (r :: rs)) (by simpa using h1) with
          h2 | h2
        · exact absurd h2 (by simp [hh' hh (List.mem_cons_self _ _)])
        · rcases sub_barrier hcm [] (' ' :: wrapConcat (r :: rs)) (by simpa using h2) with
            h3 | h3
          · exact hne ((containsSub_nil_iff pat).mp h3)
          · rcases sub_barrier hsp [] (wrapConcat (r :: rs)) (by simpa using h3) with h4 | h4
            · exact hne ((containsSub_nil_iff pat).mp h4)
            · have := ih (fun g hg => hh' g (List.mem_cons_of_mem _ hg))
              rw [Bool.eq_false_iff] at this
              exact this h4

theorem pyStrList_not_sub {pat : List Char} (hne : pat ≠ [])
    (hq : qc ∉ pat) (hcm : ',' ∉ pat) (hsp : ' ' ∉ pat)
    (hlb : '[' ∉ pat) (hrb : ']' ∉ pat)
    (hints : List (List Char)) (hh : ∀ h ∈ hints, containsSub h pat = false) :
    containsSub (pyStrList hints) pat = false := by
  rw [Bool.eq_false_iff]
  intro hcon
  cases hints with
  | nil =>
    rcases sub_barrier hlb [] [']'] (by simpa [pyStrList] using hcon) with h1 | h1
    · exact hne ((containsSub_nil_iff pat).mp h1)
    · rcases sub_barrier hrb [] [] (by simpa using h1) with h2 | h2
      · exact hne ((containsSub_nil_iff pat).mp h2)
      · exact hne ((containsSub_nil_iff pat).mp h2)
  | cons hh0 rest =>
    rcases sub_barrier hlb [] (wrapConcat (hh0 :: rest) ++ [']'])
      (by simpa [pyStrList] using hcon) with h1 | h1
    · exact hne ((containsSub_nil_iff pat).mp h1)
    · rcases sub_barrier hrb (wrapConcat (hh0 :: rest)) [] (by simpa using h1) with h2 | h2
      · have := wrapConcat_not_sub hne hq hcm hsp (hh0 :: rest) hh
        rw [Bool.eq_false_iff] at this
        exact this h2
      · exact hne ((containsSub_nil_iff pat).mp h2)

theorem lowerL_wrapConcat (hints : List (List Char)) :
    lowerL (wrapConcat hints) = wrapConcat (hints.map lowerL) := by
  induction hints with
  | nil => rfl
  | cons hh rest ih =>
    cases rest with
    | nil =>
      show lowerL (qc :: hh ++ [qc]) = qc :: lowerL hh ++ [qc]
      simp only [lowerL, List.map_cons, List.map_append, List.map_cons, List.map_nil]
      congr 1
    | cons r rs =>
      show lowerL (qc :: hh ++ qc :: ',' :: ' ' :: wrapConcat (r :: rs)) =
        qc :: lowerL hh ++ qc :: ',' :: ' ' :: wrapConcat (List.map lowerL (r :: rs))
      simp only [lowerL, List.map_cons, List.map_append] at ih ⊢
      rw [ih]
      congr 1

theorem lowerL_pyStrList (hints : List (List Char)) :
    lowerL (pyStrList hints) = pyStrList (hints.map lowerL) := by
  cases hints with
  | nil => rfl
  | cons hh rest =>
    show lowerL ('[' :: wrapConcat (hh :: rest) ++ [']']) =
      '[' :: wrapConcat (List.map lowerL (hh :: rest)) ++ [']']
    simp only [lowerL, List.map_cons, List.map_append, List.map_nil] at *
    rw [show List.map Char.toLower (wrapConcat (hh :: rest)) =
      wrapConcat (List.map (List.map Char.toLower) (hh :: rest)) from lowerL_wrapConcat _]
    congr 1

/-! ### Value extraction (`MasterAgent._extract_values`) -/

/-- The fixed controlled vocabulary of `_extract_values`, in declaration
order. -/
def valueKeywords : List String :=
  ["simple", "secure", "reliable", "fast", "accessible",
   "private", "open", "transparent", "scalable", "resilient"]

/-- `MasterAgent._extract_values`: keep the vocabulary words occurring as
substrings of the lowercased document, capped at 7. -/
def extractValues (content : String) : List String :=
  (valueKeywords.filter (fun v => containsSub (lowerL content.data) v.data)).take 7

/-- C10: For every input document, the extracted values list is a subsequence
of the fixed vocabulary in its declaration order (regardless of the order the
words occur in the document), has at most 7 entries, and has no duplicates. -/
theorem extractValues_sublist_vocab (content : String) :
    List.Sublist (extractValues content) valueKeywords ∧
    (extractValues content).length ≤ 7 ∧
    (extractValues content).Nodup := by
  have hsub : List.Sublist (extractValues content) valueKeywords :=
    (List.take_sublist _ _).trans (List.filter_sublist _)
  refine ⟨hsub, ?_, hsub.nodup (by decide)⟩
  calc (extractValues content).length
      ≤ 7 := by
        rw [extractValues, List.length_take]
        exact min_le_left _ _

/-- Instantiations of the domain-classifier theorem: the empty document (all
scores 0) classifies as `general`, and a document mentioning education
keywords yields the promised decomposition of the lexicon table. -/
theorem inferDomain_general_iff_first_argmax_app :
    inferDomain "" = "general" ∧
    (∃ l1 kws l2, domainKeywords = l1 ++ (inferDomain "students learn here", kws) :: l2 ∧
      0 < domainScore "students learn here" kws ∧
      (∀ q ∈ l1, domainScore "students learn here" q.2 < domainScore "students learn here" kws) ∧
      (∀ q ∈ l2, domainScore "students learn here" q.2 ≤ domainScore "students learn here" kws)) :=
  ⟨(inferDomain_general_iff_first_argmax "").1.mpr (by decide),
   (inferDomain_general_iff_first_argmax "students learn here").2 (by decide)⟩

/-! ### VisionProfile and the agent roster
(`MasterAgent.identify_required_agents` and its helpers) -/

/-- The record produced by `MasterAgent.interpret_vision` (the `vision_data`
dict); `goals` is flattened into its two keys. -/
structure VisionProfile where
  mission : String
  principles : List String
  goals_short_term : List String
  goals_long_term : List String
  constraints : List String
  success_criteria : List String
  domain : String
  stakeholders : List String
  values : List String
  architecture_hints : List String
deriving DecidableEq

/-- One agent dict of `identify_required_agents`; agents without a
`responsibilities` key carry the empty list. -/
structure AgentSpec where
  agent_id : String
  title : String
  type : String
  role : String
  authority : String
  responsibilities : List String
deriving DecidableEq

/-- `MasterAgent._core_coordination_agents`. -/
def coreCoordinationAgents : List AgentSpec :=
  [ { agent_id := "master-coordinator", title := "Master Coordination Agent",
      type := "coordination", role := "Orchestrate overall system execution",
      authority := "coordinate",
      responsibilities := ["Sprint planning", "Task assignment", "Progress tracking",
        "Blocker resolution"] },
    { agent_id := "task-dispatcher", title := "Task Dispatcher Agent",
      type := "coordination", role := "Assign tasks to appropriate agents",
      authority := "assign",
      responsibilities := ["Task analysis", "Agent matching", "Load balancing",
        "Priority management"] } ]

/-- The conditional mobile agent of `_domain_specific_agents`. -/
def mobileAgent : AgentSpec :=
  { agent_id := "mobile-agent", title := "Mobile Development Agent",
    type := "development", role := "Develop mobile applications",
    authority := "implement", responsibilities := [] }

/-- The conditional API agent of `_domain_specific_agents`. -/
def apiAgent : AgentSpec :=
  { agent_id := "api-agent", title := "API Development Agent",
    type := "development", role := "Design and implement APIs",
    authority := "implement", responsibilities := [] }

/-- `'kw' in str(hints).lower()`, the architecture-hint test of
`_domain_specific_agents`. -/
def hintFlag (hints : List String) (pat : List Char) : Bool :=
  containsSub (lowerL (pyStrList (hints.map String.data))) pat

/-- `MasterAgent._domain_specific_agents` (the fetched `domain` variable is
unused by the Python code). -/
def domainSpecificAgents (profile : VisionProfile) : List AgentSpec :=
  [ { agent_id := "implementation-agent", title := "Implementation Agent",
      type := "development", role := "Implement features and functionality",
      authority := "implement", responsibilities := [] },
    { agent_id := "test-agent", title := "Quality Assurance Agent",
      type := "development", role := "Ensure quality through testing",
      authority := "validate", responsibilities := [] },
    { agent_id := "documentation-agent", title := "Documentation Agent",
      type := "development", role := "Maintain project documentation",
      authority := "document", responsibilities := [] } ]
  ++ (if hintFlag profile.architecture_hints ("mobile".data) then [mobileAgent] else [])
  ++ (if hintFlag profile.architecture_hints ("api".data) then [apiAgent] else [])

/-- `MasterAgent._enforcement_agents`. -/
def enforcementAgents : List AgentSpec :=
  [ { agent_id := "constitutional-judge", title := "Constitutional Judge Agent",
      type := "enforcement", role := "Ensure compliance with constitution",
      authority := "enforce",
      responsibilities := ["Review changes for principle violations",
        "Validate vision alignment", "Enforce core laws"] },
    { agent_id := "security-enforcer", title := "Security Enforcement Agent",
      type := "enforcement", role := "Ensure security standards",
      authority := "enforce",
      responsibilities := ["Security scanning", "Vulnerability detection",
        "Secret detection"] },
    { agent_id := "quality-enforcer", title := "Quality Enforcement Agent",
      type := "enforcement", role := "Ensure quality standards",
      authority := "enforce",
      responsibilities := ["Code quality checks", "Test coverage validation",
        "Performance validation"] } ]

/-- `MasterAgent.identify_required_agents`: coordination, then
domain-specific, then enforcement agents. -/
def identifyRequiredAgents (profile : VisionProfile) : List AgentSpec :=
  coreCoordinationAgents ++ domainSpecificAgents profile ++ enforcementAgents

/-- C2 (amended): When the architecture hints contain the substring "mobile"
(case-insensitively), the derived roster includes an agent with agent_id
`mobile-agent`; and when the hints contain neither "mobile" nor "api", the
roster contains exactly 8 agents (2 coordination + 3 development +
0 specialized + 3 enforcement) — not 10 as the claim states. -/
theorem roster_mobile_and_base_count (p : VisionProfile) :
    ((∃ h ∈ p.architecture_hints, containsSub (lowerL h.data) ("mobile".data) = true) →
      ∃ a ∈ identifyRequiredAgents p, a.agent_id = "mobile-agent") ∧
    ((∀ h ∈ p.architecture_hints, containsSub (lowerL h.data) ("mobile".data) = false ∧
        containsSub (lowerL h.data) ("api".data) = false) →
      (identifyRequiredAgents p).length = 8) := by
  constructor
  · rintro ⟨h, hmem, hsub⟩
    have hflag : hintFlag p.architecture_hints ("mobile".data) = true := by
      rw [hintFlag, lowerL_pyStrList]
      refine pyStrList_sub_of_mem ?_ hsub
      rw [List.map_map]
      exact List.mem_map_of_mem _ hmem
    refine ⟨mobileAgent, ?_, rfl⟩
    simp [identifyRequiredAgents, domainSpecificAgents, hflag]
  · intro hno
    have hm : hintFlag p.architecture_hints ("mobile".data) = false := by
      rw [hintFlag, lowerL_pyStrList, List.map_map]
      refine pyStrList_not_sub (by decide) (by decide) (by decide) (by decide)
        (by decide) (by decide) _ ?_
      intro g hg
      obtain ⟨h, hmem, rfl⟩ := List.mem_map.mp hg
      exact (hno h hmem).1
    have ha : hintFlag p.architecture_hints ("api".data) = false := by
      rw [hintFlag, lowerL_pyStrList, List.map_map]
      refine pyStrList_not_sub (by decide) (by decide) (by decide) (by decide)
        (by decide) (by decide) _ ?_
      intro g hg
      obtain ⟨h, hmem, rfl⟩ := List.mem_map.mp hg
      exact (hno h hmem).2
    simp [identifyRequiredAgents, domainSpecificAgents, hm, ha,
      coreCoordinationAgents, enforcementAgents]

/-- C2 counterexample: for a profile whose architecture hints contain neither
"mobile" nor "api", the roster has exactly 8 agents, so the claimed roster
size of 10 is wrong on the code. -/
theorem roster_base_count_counterexample :
    (identifyRequiredAgents
      { mission := "", principles := [], goals_short_term := [], goals_long_term := [],
        constraints := [], success_criteria := [], domain := "general",
        stakeholders := [], values := [],
        architecture_hints := ["An offline cloud platform"] }).length = 8 ∧ (8 : Nat) ≠ 10 := by
  constructor
  · decide
  · decide

/-- A profile whose hints mention mobile, for instantiating the roster
theorem. -/
def profileMobile : VisionProfile :=
  { mission := "", principles := [], goals_short_term := [], goals_long_term := [],
    constraints := [], success_criteria := [], domain := "general",
    stakeholders := [], values := [],
    architecture_hints := ["The app targets Mobile phones first"] }

/-- A profile whose hints mention neither mobile nor api. -/
def profileNoMobile : VisionProfile :=
  { mission := "", principles := [], goals_short_term := [], goals_long_term := [],
    constraints := [], success_criteria := [], domain := "general",
    stakeholders := [], values := [],
    architecture_hints := ["An offline cloud platform"] }

/-- Instantiations of the roster theorem at concrete profiles. -/
theorem roster_mobile_and_base_count_app :
    (∃ a ∈ identifyRequiredAgents profileMobile, a.agent_id = "mobile-agent") ∧
    (identifyRequiredAgents profileNoMobile).length = 8 :=
  ⟨(roster_mobile_and_base_count profileMobile).1 (by decide),
   (roster_mobile_and_base_count profileNoMobile).2 (by decide)⟩

/-- C4: For every VisionProfile, the derived agent roster contains no two
AgentSpec records with the same agent_id. -/
theorem roster_agent_ids_nodup (p : VisionProfile) :
    ((identifyRequiredAgents p).map AgentSpec.agent_id).Nodup := by
  cases hm : hintFlag p.architecture_hints ("mobile".data) <;>
    cases ha : hintFlag p.architecture_hints ("api".data) <;>
      simp only [identifyRequiredAgents, domainSpecificAgents, hm, ha, if_true, if_false,
        Bool.false_eq_true, Bool.true_eq_false] <;>
      decide

/-! ### Constitution derivation
(`MasterAgent._derive_core_laws`, `MasterAgent._define_quality_gates`,
`PRConstitutionGenerator._generate_principle_checks`,
`PRConstitutionGenerator._derive_technical_requirements`) -/

/-- One core law dict of `_derive_core_laws`. -/
structure CoreLaw where
  id : String
  principle : String
  enforcement : String
  violation_action : String
deriving DecidableEq

/-- Python's `f'LAW-{n:03d}'`: three-digit zero-padded law id. -/
def formatLawId (n : Nat) : String :=
  "LAW-" ++ (if n < 10 then "00" ++ toString n
             else if n < 100 then "0" ++ toString n
             else toString n)

/-- The `for i, principle in enumerate(...)` loop body of
`_derive_core_laws`, with `i` carried explicitly. -/
def deriveCoreLawsFrom (i : Nat) : List String → List CoreLaw
  | [] => []
  | pr :: rest =>
    { id := formatLawId (i + 1), principle := pr,
      enforcement := "automatic", violation_action := "reject" } ::
    deriveCoreLawsFrom (i + 1) rest

/-- `MasterAgent._derive_core_laws`: the first 5 principles become laws
`LAW-001..` in extraction order. -/
def deriveCoreLaws (principles : List String) : List CoreLaw :=
  deriveCoreLawsFrom 0 (principles.take 5)

/-- `any(keyword in principle_lower for keyword in kws)`. -/
def anyKw (pl : List Char) (kws : List String) : Bool :=
  kws.any (fun kw => containsSub pl kw.data)

/-- `PRConstitutionGenerator._generate_principle_checks`: one generic check,
then up to two checks from the first matching keyword group of the fixed
priority cascade, capped at 4. -/
def generatePrincipleChecks (principle : String) : List String :=
  (["Implementation aligns with principle"] ++
    (if anyKw (lowerL principle.data) ["offline", "connectivity", "network"] then
      ["Feature works without network connectivity",
       "Graceful handling of network failures"]
    else if anyKw (lowerL principle.data) ["mobile", "phone", "device"] then
      ["Mobile-friendly implementation", "Works on target mobile devices"]
    else if anyKw (lowerL principle.data) ["simple", "simplicity", "easy"] then
      ["Solution is as simple as possible", "No unnecessary complexity"]
    else if anyKw (lowerL principle.data) ["secure", "security", "privacy", "protected"] then
      ["Security best practices followed", "No known vulnerabilities"]
    else if anyKw (lowerL principle.data) ["performance", "fast", "speed", "quick"] then
      ["Performance targets met", "No performance regressions"]
    else if anyKw (lowerL principle.data) ["reliable", "reliability", "consistent",
        "resilient"] then
      ["Error handling implemented", "Graceful degradation in edge cases"]
    else if anyKw (lowerL principle.data) ["accessible", "accessibility", "anyone",
        "anywhere"] then
      ["Works in target environments", "No unnecessary barriers"]
    else if anyKw (lowerL principle.data) ["open", "transparent", "interoperable"] then
      ["Uses open standards where applicable", "Documented interfaces"]
    else
      ["Principle considered in design", "No violations of principle"])).take 4

/-- One quality gate dict of `_define_quality_gates`. -/
structure QualityGate where
  name : String
  checks : List String
  required : Bool
deriving DecidableEq

/-- `MasterAgent._define_quality_gates`: three fixed gates, plus an
accessibility gate iff the domain is education. -/
def defineQualityGates (domain : String) : List QualityGate :=
  [ { name := "Code Quality", checks := ["linting", "tests", "coverage"], required := true },
    { name := "Vision Alignment", checks := ["goals", "principles", "constraints"],
      required := true },
    { name := "Security", checks := ["vulnerability-scan", "secrets-check"],
      required := true } ]
  ++ (if domain = "education" then
      [{ name := "Accessibility", checks := ["wcag", "screen-reader"], required := true }]
    else [])

/-- The profile-dependent fields of `MasterAgent.generate_constitution`; the
remaining entries of the Python dict (`principles`, `decision_framework`,
`review_criteria`, `enforcement`, `escalation`) are constants independent of
the profile and of the clock. -/
structure Constitution where
  version : String
  created : String
  source_vision : String
  core_laws : List CoreLaw
  quality_gates : List QualityGate
deriving DecidableEq

/-- `MasterAgent.generate_constitution`, with the wall-clock reading
(`datetime.now().isoformat()`) passed in as the `now` argument. -/
def generateConstitution (p : VisionProfile) (sourcePath now : String) : Constitution :=
  { version := "1.0", created := now, source_vision := sourcePath,
    core_laws := deriveCoreLaws p.principles,
    quality_gates := defineQualityGates p.domain }

/-- One technical-requirement record of `_derive_technical_requirements`. -/
structure Requirement where
  description : String
  checks : List String
deriving DecidableEq

/-- `' '.join(strings)`. -/
def joinSpace (l : List String) : List Char := (String.intercalate " " l).data

/-- `PRConstitutionGenerator._derive_technical_requirements`: three
independent boolean gates over hints, constraints and values.  (Note the
Python quirk reproduced here: the `fast` test runs on the unlowered joined
values, and the `performance` test on the lowered joined constraints.) -/
def deriveTechnicalRequirements (p : VisionProfile) : List (String × Requirement) :=
  (if anyKw (lowerL (joinSpace p.architecture_hints)) ["mobile", "phone", "device"] then
    [("device_compatibility",
      { description := "Ensure compatibility with target devices",
        checks := ["Tested on target devices or emulators",
          "Performance within acceptable range", "No crashes on target platforms",
          "Resource usage acceptable"] })]
  else [])
  ++ (if containsSub (lowerL (joinSpace p.constraints)) ("performance".data) ||
        containsSub (joinSpace p.values) ("fast".data) then
    [("performance",
      { description := "Meet performance requirements",
        checks := ["Performance benchmarks run", "No performance regressions",
          "Response times acceptable", "Resource usage optimized"] })]
  else [])
  ++ (if p.constraints.any (fun c =>
        containsSub (lowerL c.data) ("storage".data) ||
        containsSub (lowerL c.data) ("memory".data) ||
        containsSub (lowerL c.data) ("resource".data)) then
    [("resource_constraints",
      { description := "Respect resource constraints",
        checks := ["Storage impact documented", "Memory usage acceptable",
          "Resource cleanup implemented", "Efficient data structures used"] })]
  else [])

/-- The profile-dependent fields of
`PRConstitutionGenerator._create_pr_constitution` needed by the claims; the
timestamp `datetime.now().strftime('%Y-%m-%d')` is passed in as `today`.  The
remaining entries of the Python dict are either constants or derived from the
same profile. -/
structure PrConstitution where
  version : String
  last_updated : String
  generated_from : String
  domain : String
  technical_requirements : List (String × Requirement)
deriving DecidableEq

/-- `_create_pr_constitution`, restricted to the fields above. -/
def createPrConstitution (p : VisionProfile) (sourcePath today : String) : PrConstitution :=
  { version := "1.0", last_updated := today, generated_from := sourcePath,
    domain := p.domain,
    technical_requirements := deriveTechnicalRequirements p }

/-- C3: For every VisionProfile whose principles list has at least 5 entries
and whose first principle mentions "offline" or "network", the derived core
laws map the first 5 principles 1:1 in list order to laws with ids exactly
LAW-001..LAW-005, enforcement `automatic` and violation_action `reject`, and
the checks generated for the first principle include the connectivity check
"Feature works without network connectivity". -/
theorem coreLaws_ids_and_connectivity_check (p : VisionProfile)
    (h5 : 5 ≤ p.principles.length)
    (hoff : containsSub (lowerL p.principles.headI.data) ("offline".data) = true ∨
      containsSub (lowerL p.principles.headI.data) ("network".data) = true) :
    (deriveCoreLaws p.principles).map CoreLaw.id =
      ["LAW-001", "LAW-002", "LAW-003", "LAW-004", "LAW-005"] ∧
    (deriveCoreLaws p.principles).map CoreLaw.principle = p.principles.take 5 ∧
    (∀ law ∈ deriveCoreLaws p.principles,
      law.enforcement = "automatic" ∧ law.violation_action = "reject") ∧
    "Feature works without network connectivity" ∈
      generatePrincipleChecks p.principles.headI := by
  obtain ⟨a, b, c, d, e, rest, hl⟩ :
      ∃ a b c d e rest, p.principles = a :: b :: c :: d :: e :: rest := by
    rcases hp : p.principles with _ | ⟨a, _ | ⟨b, _ | ⟨c, _ | ⟨d, _ | ⟨e, rest⟩⟩⟩⟩⟩ <;>
      simp [hp] at h5
    exact ⟨a, b, c, d, e, rest, rfl⟩
  have hkw : anyKw (lowerL p.principles.headI.data)
      ["offline", "connectivity", "network"] = true := by
    rcases hoff with h | h <;> simp [anyKw, h]
  have hfields : ∀ (i : Nat) (l : List String) law, law ∈ deriveCoreLawsFrom i l →
      law.enforcement = "automatic" ∧ law.violation_action = "reject" := by
    intro i l
    induction l generalizing i with
    | nil => intro law hlaw; exact absurd hlaw (List.not_mem_nil law)
    | cons pr rest ih =>
      intro law hlaw
      rcases List.mem_cons.mp hlaw with rfl | hlaw'
      · exact ⟨rfl, rfl⟩
      · exact ih (i + 1) law hlaw'
  have e1 : formatLawId 1 = "LAW-001" := by decide
  have e2 : formatLawId 2 = "LAW-002" := by decide
  have e3 : formatLawId 3 = "LAW-003" := by decide
  have e4 : formatLawId 4 = "LAW-004" := by decide
  have e5 : formatLawId 5 = "LAW-005" := by decide
  refine ⟨?_, ?_, fun law hlaw => hfields 0 _ law hlaw, ?_⟩
  · rw [hl]
    simp [deriveCoreLaws, deriveCoreLawsFrom, e1, e2, e3, e4, e5]
  · rw [hl]; rfl
  · rw [generatePrincipleChecks, if_pos hkw]
    simp

/-- A profile with the five example principles, the first offline-first. -/
def profileOffline : VisionProfile :=
  { mission := "", principles :=
      ["Offline-first: app must work without network", "Simple: keep the design minimal",
       "Secure: protect learner data", "Fast: quick startup on old phones",
       "Accessible: usable by everyone"],
    goals_short_term := [], goals_long_term := [], constraints := [],
    success_criteria := [], domain := "education", stakeholders := [], values := [],
    architecture_hints := [] }

/-- Instantiation of the core-law theorem at the example principle list. -/
theorem coreLaws_ids_and_connectivity_check_app :
    (deriveCoreLaws profileOffline.principles).map CoreLaw.id =
      ["LAW-001", "LAW-002", "LAW-003", "LAW-004", "LAW-005"] ∧
    (deriveCoreLaws profileOffline.principles).map CoreLaw.principle =
      profileOffline.principles.take 5 ∧
    (∀ law ∈ deriveCoreLaws profileOffline.principles,
      law.enforcement = "automatic" ∧ law.violation_action = "reject") ∧
    "Feature works without network connectivity" ∈
      generatePrincipleChecks profileOffline.principles.headI :=
  coreLaws_ids_and_connectivity_check profileOffline (by decide) (Or.inl (by decide))

/-- C7: Deriving the constitution twice from the same VisionProfile (same
vision data and source path) yields identical core_laws, quality_gates and
technical_requirements even when the two runs read different clocks — the
structural content is a deterministic function of the profile, with only the
timestamp fields depending on the clock. -/
theorem constitution_deterministic_modulo_timestamp (p : VisionProfile)
    (sourcePath t1 t2 : String) :
    (generateConstitution p sourcePath t1).core_laws =
      (generateConstitution p sourcePath t2).core_laws ∧
    (generateConstitution p sourcePath t1).quality_gates =
      (generateConstitution p sourcePath t2).quality_gates ∧
    (createPrConstitution p sourcePath t1).technical_requirements =
      (createPrConstitution p sourcePath t2).technical_requirements :=
  ⟨rfl, rfl, rfl⟩

/-! ### List-item extraction (`MasterAgent._extract_list_items`)

The source line `line.startswith(('-', '*', '‚Ä¢'))` contains, as its third
option, the three-character sequence U+201A U+00C4 U+00A2 (a mojibake of the
bullet glyph, taken from the file's actual bytes), and the substitution regex
`r'^[-*‚Ä¢]\s*|\d+\.\s*'` has those three characters as separate members of
its character class.  `re.sub` with that pattern removes a single leading
class character plus following whitespace (the `^`-anchored alternative can
only fire at position 0), and every digit-run followed by `.` and whitespace
anywhere in the line. -/

/-- Python's `content.split('\n')` (keeping empty segments). -/
def splitLines : List Char → List (List Char)
  | [] => [[]]
  | c :: rest =>
    if c = '\n' then [] :: splitLines rest
    else
      match splitLines rest with
      | [] => [[c]]
      | l :: ls => (c :: l) :: ls

/-- The three characters stored in the source for the bullet glyph. -/
def bulletGlyph : List Char := [Char.ofNat 0x201A, Char.ofNat 0xC4, Char.ofNat 0xA2]

/-- `line.startswith(('-', '*', '‚Ä¢'))`. -/
def startsWithBullet (line : List Char) : Bool :=
  List.isPrefixOf ['-'] line || List.isPrefixOf ['*'] line ||
    List.isPrefixOf bulletGlyph line

/-- `re.match(r'^\d+\.', line)`: at least one ASCII digit then a dot.  (The
greedy `\d+` only backtracks onto digits, never onto `.`, so the maximal
digit run must be followed by the dot.) -/
def startsNumbered (line : List Char) : Bool :=
  match line with
  | [] => false
  | c :: _ =>
    c.isDigit &&
      (match line.dropWhile Char.isDigit with
       | '.' :: _ => true
       | _ => false)

/-- Membership in the regex character class `[-*‚Ä¢]` (five characters: the
two ASCII markers plus the three mojibake characters). -/
def bulletClassChar (c : Char) : Bool :=
  c = '-' || c = '*' || c = Char.ofNat 0x201A || c = Char.ofNat 0xC4 || c = Char.ofNat 0xA2

/-- Fuel-indexed global substitution of `\d+\.\s*` by the empty string
(`re.sub`'s scan after the position-0 alternative has been handled); fuel
`s.length` always suffices since every step consumes at least one
character. -/
def subOrdinalsAux (fuel : Nat) (s : List Char) : List Char :=
  match fuel, s with
  | 0, s => s
  | _, [] => []
  | fuel + 1, c :: rest =>
    if c.isDigit then
      match (c :: rest).dropWhile Char.isDigit with
      | '.' :: tail => subOrdinalsAux fuel (tail.dropWhile pyIsSpace)
      | _ => c :: subOrdinalsAux fuel rest
    else c :: subOrdinalsAux fuel rest

/-- Remove every non-overlapping match of `\d+\.\s*`. -/
def subOrdinals (s : List Char) : List Char := subOrdinalsAux s.length s

/-- `re.sub(r'^[-*‚Ä¢]\s*|\d+\.\s*', '', line)`: the anchored first
alternative fires at most once, at position 0; scanning then continues with
the second alternative only. -/
def removeMarkers (line : List Char) : List Char :=
  match line with
  | [] => []
  | c :: rest =>
    if bulletClassChar c then subOrdinals (rest.dropWhile pyIsSpace)
    else subOrdinals (c :: rest)

/-- `MasterAgent._extract_list_items`. -/
def extractListItems (content : List Char) : List (List Char) :=
  (splitLines content).filterMap (fun raw =>
    let line := pyStrip raw
    if startsWithBullet line || startsNumbered line then
      let item := removeMarkers line
      if item ≠ [] ∧ 5 < item.length then some item else none
    else none)

/-- The amended contract, written as a strip/filter/map/filter pipeline: keep
each stripped line that begins with a list marker, remove the markers, and
keep exactly the processed items strictly longer than 5 characters. -/
def listItemsSpec (content : List Char) : List (List Char) :=
  ((((splitLines content).map pyStrip).filter
      (fun line => startsWithBullet line || startsNumbered line)).map
    removeMarkers).filter (fun item => decide (5 < item.length))

/-- C6 counterexample: an item whose stripped content is exactly 5 characters
long is discarded (the code keeps only items strictly longer than 5), and the
marker stripping also removes an embedded ordinal `12. `, so neither the
"exactly 5 characters is kept" part nor the "marker stripped" description of
the claim holds of the code. -/
theorem extractListItems_five_char_dropped :
    extractListItems ("- abcde".data) = [] ∧ ("abcde".data).length = 5 ∧
    extractListItems ("- abc 12. defg".data) = ["abc defg".data] := by
  refine ⟨by decide, by decide, by decide⟩

/-- C6 (amended): For every input text block, list-item extraction returns
exactly the lines whose stripped form begins with a bullet marker or a digit
run followed by a dot, processed by removing the leading marker with its
following whitespace and every embedded digit-run-dot-whitespace sequence, in
document order; exactly those processed items that are at most 5 characters
long are discarded (an item of exactly 5 characters is discarded), and the
output is a deterministic function of the input. -/
theorem extractListItems_refines_pipeline (content : List Char) :
    extractListItems content = listItemsSpec content ∧
    ∀ item ∈ extractListItems content, 5 < item.length := by
  have key : extractListItems content = listItemsSpec content := by
    rw [extractListItems, listItemsSpec]
    generalize splitLines content = L
    induction L with
    | nil => rfl
    | cons raw rest ih =>
      simp only [List.filterMap_cons, List.map_cons, List.filter_cons]
      by_cases hb : (startsWithBullet (pyStrip raw) || startsNumbered (pyStrip raw)) = true
      · simp only [hb, if_true]
        by_cases hlen : 5 < (removeMarkers (pyStrip raw)).length
        · have hne : removeMarkers (pyStrip raw) ≠ [] := by
            intro hcon
            rw [hcon] at hlen
            simp at hlen
          simp only [if_pos (And.intro hne hlen), List.map_cons, List.filter_cons,
            decide_eq_true hlen, if_true, ih]
        · have hcond : ¬(removeMarkers (pyStrip raw) ≠ [] ∧
              5 < (removeMarkers (pyStrip raw)).length) := fun h => hlen h.2
          simp only [if_neg hcond, List.map_cons, List.filter_cons, decide_eq_false hlen,
            Bool.false_eq_true, if_false, ih]
      · simp only [hb, Bool.false_eq_true, if_false, ih]
  refine ⟨key, ?_⟩
  intro item him
  rw [key, listItemsSpec] at him
  have := List.mem_filter.mp him
  exact of_decide_eq_true this.2

/-- Instantiation of the amended list-item theorem: a six-character item is
kept and is indeed longer than 5 characters. -/
theorem extractListItems_refines_pipeline_app : 5 < ("abcdef".data).length :=
  (extractListItems_refines_pipeline ("- abcdef".data)).2 ("abcdef".data) (by decide)

/-! ### Section extraction

`VisionTaskExtractor._extract_section` builds its pattern with
`rf'#{1,3}\s+{re.escape(heading)}.*?\n(.*?)(?=\n#{1,3}\s+|\Z)'`.  In an
f-string, `{1,3}` is a replacement field whose expression is the tuple
`1,3`, formatted as `(1, 3)`, so the compiled regex is
`#(1, 3)\s+<heading>.*?\n(.*?)(?=\n#(1, 3)\s+|\Z)`: a match must begin with
the literal characters `#1, 3`, and group 1 is the accidental `(1, 3)` group
(so even on a match, `match.group(1).strip()` is the text `1, 3`).
`MasterAgent._extract_mission` instead concatenates raw strings (its comment
notes avoiding "f-string brace issues with {1,3}"), producing the intended
`#{1,3}\s+Mission.*?\n+(.*?)(?=\n#{1,3}|\Z)` with DOTALL and IGNORECASE. -/

/-- After the whitespace of `\s+`: the literal heading, then `.*?\n` needs
some later newline; the final `(.*?)(?=...|\Z)` then always succeeds via
`\Z`. -/
def headingThenRest (rest h : List Char) : Bool :=
  h.isPrefixOf rest && (rest.drop h.length).contains '\n'

/-- `\s+` then the heading, with backtracking over the amount of whitespace
consumed (the disjunction ranges over every split of the whitespace run). -/
def wsThenHeading : List Char → List Char → Bool
  | [], _ => false
  | a :: rest, h => pyIsSpace a && (headingThenRest rest h || wsThenHeading rest h)

/-- A match of the compiled (buggy) section pattern starting at this
position: the literal `#1, 3`, then `\s+`, then the heading, then a newline
somewhere later. -/
def sectionMatchAt (c h : List Char) : Bool :=
  List.isPrefixOf ("#1, 3".data) c && wsThenHeading (c.drop 5) h

/-- `re.search`: leftmost match of the section pattern. -/
def hasSectionMatch : List Char → List Char → Bool
  | [], _ => false
  | c :: rest, h => sectionMatchAt (c :: rest) h || hasSectionMatch rest h

/-- `VisionTaskExtractor._extract_section`: on any successful match, group 1
is the accidental `(1, 3)` group whose captured text is always `1, 3`
(already stripped); with no match the function returns the empty string. -/
def extractSection (content heading : String) : String :=
  if hasSectionMatch content.data heading.data then "1, 3" else ""

/-- Case-insensitive literal-keyword consumption (the keyword `kw` is stored
lowercase); returns the remainder after the keyword. -/
def dropKwCi (kw s : List Char) : Option (List Char) :=
  if lowerL (s.take kw.length) = kw then some (s.drop kw.length) else none

/-- `\s+` then the keyword (IGNORECASE), returning the remainder after the
keyword; since the keyword begins with a non-whitespace character, greedy and
lazy whitespace consumption coincide, and all splits are tried. -/
def wsThenKw (kw : List Char) : List Char → Option (List Char)
  | [] => none
  | a :: rest =>
    if pyIsSpace a then
      match dropKwCi kw rest with
      | some r => some r
      | none => wsThenKw kw rest
    else none

/-- The lazy group `(.*?)` grows until the lookahead `\n#{1,3}` (a newline
followed by at least one `#`) or `\Z` (end of input) holds; this takes the
shortest such prefix. -/
def takeBody : List Char → List Char
  | [] => []
  | '\n' :: '#' :: _ => []
  | c :: rest => c :: takeBody rest

/-- A match of `#{1,3}\s+<kw>.*?\n+(.*?)(?=\n#{1,3}|\Z)` starting at `s`,
returning group 1.  `#{1,3}` greedily takes the hash run (a run longer than 3
leaves a `#` where `\s+` must match, failing every backtrack); lazy `.*?`
stops at the first newline; greedy `\n+` consumes the whole newline run.  The
first such configuration always completes via `\Z`. -/
def headingMatchAt (kw s : List Char) : Option (List Char) :=
  let hashes := (s.takeWhile (fun c => c = '#')).length
  if 1 ≤ hashes ∧ hashes ≤ 3 then
    match wsThenKw kw (s.drop hashes) with
    | some afterKw =>
      match afterKw.dropWhile (fun c => c ≠ '\n') with
      | [] => none
      | nl => some (takeBody (nl.dropWhile (fun c => c = '\n')))
    | none => none
  else none

/-- `re.search` for the mission-style pattern: leftmost match. -/
def findKwSection (kw : List Char) : List Char → Option (List Char)
  | [] => none
  | c :: rest =>
    match headingMatchAt kw (c :: rest) with
    | some g => some g
    | none => findKwSection kw rest

/-- Python's `content.split('\n\n')` (non-overlapping, left to right). -/
def splitParas : List Char → List (List Char)
  | [] => [[]]
  | '\n' :: '\n' :: rest => [] :: splitParas rest
  | c :: rest =>
    match splitParas rest with
    | [] => [[c]]
    | l :: ls => (c :: l) :: ls

/-- `MasterAgent._extract_mission`: try the Mission, Purpose, Overview
heading patterns in order, each stripped and truncated to 500 characters;
otherwise fall back to the first paragraph (the split list is never empty in
Python, so the default branch is dead code, kept for fidelity). -/
def extractMission (content : List Char) : List Char :=
  match findKwSection ("mission".data) content with
  | some g => (pyStrip g).take 500
  | none =>
    match findKwSection ("purpose".data) content with
    | some g => (pyStrip g).take 500
    | none =>
      match findKwSection ("overview".data) content with
      | some g => (pyStrip g).take 500
      | none =>
        match splitParas content with
        | [] => "Mission not specified".data
        | p :: _ => (pyStrip p).take 500

/-- A document whose Mission heading is followed by a 600-character body. -/
def longMissionDoc : List Char := "# Mission\n".data ++ List.replicate 600 'a'

/-- C5: On a well-formed markdown document with a `# Mission` heading,
`VisionTaskExtractor._extract_section` returns the empty string instead of
the section body, because its f-string-built pattern requires the literal
text `#1, 3`; the intended behaviour (shown by `MasterAgent._extract_mission`
on the same document) is to return the section body. -/
theorem extractSection_fstring_bug_eval :
    extractSection "# Mission\nServe everyone offline." "Mission" = "" ∧
    extractMission ("# Mission\nServe everyone offline.".data) =
      "Serve everyone offline.".data := by
  refine ⟨by decide, by decide⟩

set_option maxRecDepth 8000 in
/-- C9: For every input document, the extracted mission is at most 500
characters long — the truncation applies in the heading branches as well as
in the first-paragraph fallback, as witnessed by a heading section with a
600-character body being cut to exactly 500. -/
theorem extractMission_truncated_500 :
    (∀ content : List Char, (extractMission content).length ≤ 500) ∧
    (extractMission longMissionDoc).length = 500 := by
  constructor
  · intro content
    have hT : ∀ g : List Char, ((pyStrip g).take 500).length ≤ 500 := by
      intro g
      rw [List.length_take]
      exact min_le_left _ _
    simp only [extractMission]
    split
    · exact hT _
    · split
      · exact hT _
      · split
        · exact hT _
        · split
          · decide
          · exact hT _
  · decide

/-! ### Task-pattern analysis (`AgentCreator.analyze_task_patterns`)

The Python code groups tasks by `task.get('agent_type', 'general-agent')`
into an insertion-ordered dict (keys appear in order of first occurrence),
suggests a specialization for every type with at least 3 tasks, and sorts by
`sorted(suggestions, key=lambda x: x['task_count'], reverse=True)` — a
*stable* descending sort, so equal counts keep first-occurrence order.  The
stable descending order is unique, so it is modelled by a stable insertion
sort.  The `avg_complexity` field (a Python float average) is omitted from
the embedding; no claim mentions it. -/

/-- One sprint task as read from the sprint-plan YAML; `agent_type` and
`estimated_points` may be absent. -/
structure STask where
  description : String
  agent_type : Option String
  estimated_points : Option Nat
deriving DecidableEq

/-- `task.get('agent_type', 'general-agent')`. -/
def taskType (t : STask) : String := t.agent_type.getD "general-agent"

/-- Insertion-ordered dict keys: each type at its first occurrence. -/
def keepFirstAux (seen : List String) : List String → List String
  | [] => []
  | x :: xs =>
    if x ∈ seen then keepFirstAux seen xs else x :: keepFirstAux (x :: seen) xs

/-- Keys of the `agent_needs` dict, in first-occurrence order. -/
def keepFirst (l : List String) : List String := keepFirstAux [] l

theorem mem_keepFirstAux (a : String) (l seen : List String) :
    a ∈ keepFirstAux seen l ↔ a ∈ l ∧ a ∉ seen := by
  induction l generalizing seen with
  | nil => simp [keepFirstAux]
  | cons x xs ih =>
    by_cases hx : x ∈ seen
    · rw [keepFirstAux, if_pos hx, ih]
      constructor
      · rintro ⟨h1, h2⟩; exact ⟨List.mem_cons_of_mem _ h1, h2⟩
      · rintro ⟨h1, h2⟩
        rcases List.mem_cons.mp h1 with rfl | h1'
        · exact absurd hx h2
        · exact ⟨h1', h2⟩
    · rw [keepFirstAux, if_neg hx]
      by_cases hax : a = x
      · subst hax
        simp [hx]
      · simp only [List.mem_cons, hax, false_or, ih]

theorem mem_keepFirst (a : String) (l : List String) : a ∈ keepFirst l ↔ a ∈ l := by
  rw [keepFirst, mem_keepFirstAux]
  simp

/-- One suggestion dict of `analyze_task_patterns` (without the
floating-point `avg_complexity`). -/
structure AgentSuggestion where
  agent_type : String
  task_count : Nat
  sample_tasks : List String
  priority : String
deriving DecidableEq

/-- `agent_needs[agent_type]['count']`: number of tasks of a given type. -/
def typeCount (tasks : List STask) (t : String) : Nat :=
  (tasks.filter (fun tk => taskType tk = t)).length

/-- The suggestion record built for one qualifying agent type. -/
def mkSuggestion (tasks : List STask) (t : String) : AgentSuggestion :=
  { agent_type := t, task_count := typeCount tasks t,
    sample_tasks :=
      ((tasks.filter (fun tk => taskType tk = t)).map STask.description).take 3,
    priority := if 5 ≤ typeCount tasks t then "high" else "medium" }

/-- The suggestion list before sorting, iterated over the dict keys in
first-occurrence order, keeping types with at least 3 tasks. -/
def baseSuggestions (tasks : List STask) : List AgentSuggestion :=
  (keepFirst (tasks.map taskType)).filterMap (fun t =>
    if 3 ≤ typeCount tasks t then some (mkSuggestion tasks t) else none)

/-- Stable descending insertion: the new element goes before the first
element with a count not larger than its own, so elements inserted earlier
keep priority on ties. -/
def insertDesc (x : AgentSuggestion) : List AgentSuggestion → List AgentSuggestion
  | [] => [x]
  | y :: ys =>
    if y.task_count ≤ x.task_count then x :: y :: ys else y :: insertDesc x ys

/-- Stable descending sort by `task_count` — extensionally equal to Python's
`sorted(..., key=lambda x: x['task_count'], reverse=True)`, since the stable
descending order is unique. -/
def sortDesc : List AgentSuggestion → List AgentSuggestion
  | [] => []
  | x :: xs => insertDesc x (sortDesc xs)

/-- The dict returned by `analyze_task_patterns`. -/
structure TaskAnalysis where
  suggestions : List AgentSuggestion
  total_tasks : Nat
  unique_agent_types : Nat
deriving DecidableEq

/-- `AgentCreator.analyze_task_patterns`. -/
def analyzeTaskPatterns (tasks : List STask) : TaskAnalysis :=
  { suggestions := sortDesc (baseSuggestions tasks),
    total_tasks := tasks.length,
    unique_agent_types := (keepFirst (tasks.map taskType)).length }

theorem mem_insertDesc (a x : AgentSuggestion) (l : List AgentSuggestion) :
    a ∈ insertDesc x l ↔ a = x ∨ a ∈ l := by
  induction l with
  | nil => simp [insertDesc]
  | cons y ys ih =>
    rw [insertDesc]
    by_cases hyx : y.task_count ≤ x.task_count
    · rw [if_pos hyx]
      simp
    · rw [if_neg hyx]
      simp only [List.mem_cons, ih]
      tauto

theorem mem_sortDesc (a : AgentSuggestion) (l : List AgentSuggestion) :
    a ∈ sortDesc l ↔ a ∈ l := by
  induction l with
  | nil => simp [sortDesc]
  | cons x xs ih =>
    rw [sortDesc, mem_insertDesc, ih]
    simp

theorem sorted_insertDesc (x : AgentSuggestion) (l : List AgentSuggestion)
    (h : List.Pairwise (fun a b => b.task_count ≤ a.task_count) l) :
    List.Pairwise (fun a b => b.task_count ≤ a.task_count) (insertDesc x l) := by
  induction l with
  | nil => simp [insertDesc]
  | cons y ys ih =>
    rw [insertDesc]
    rcases List.pairwise_cons.mp h with ⟨hy, hys⟩
    by_cases hyx : y.task_count ≤ x.task_count
    · rw [if_pos hyx]
      refine List.pairwise_cons.mpr ⟨?_, h⟩
      intro b hb
      rcases List.mem_cons.mp hb with rfl | hb'
      · exact hyx
      · exact le_trans (hy b hb') hyx
    · rw [if_neg hyx]
      refine List.pairwise_cons.mpr ⟨?_, ih hys⟩
      intro b hb
      rcases (mem_insertDesc b x ys).mp hb with rfl | hb'
      · omega
      · exact hy b hb'

theorem sorted_sortDesc (l : List AgentSuggestion) :
    List.Pairwise (fun a b => b.task_count ≤ a.task_count) (sortDesc l) := by
  induction l with
  | nil => simp [sortDesc]
  | cons x xs ih => exact sorted_insertDesc x (sortDesc xs) ih

theorem insertDesc_filter_count (x : AgentSuggestion) (l : List AgentSuggestion) (c : Nat) :
    (insertDesc x l).filter (fun s => s.task_count = c) =
      if x.task_count = c then x :: l.filter (fun s => s.task_count = c)
      else l.filter (fun s => s.task_count = c) := by
  induction l with
  | nil =>
    rw [insertDesc]
    by_cases hx : x.task_count = c
    · simp [List.filter_cons, hx]
    · simp [List.filter_cons, hx]
  | cons y ys ih =>
    rw [insertDesc]
    by_cases hyx : y.task_count ≤ x.task_count
    · rw [if_pos hyx]
      by_cases hx : x.task_count = c
      · simp [List.filter_cons, hx]
      · simp [List.filter_cons, hx]
    · rw [if_neg hyx]
      by_cases hy : y.task_count = c
      · have hx : ¬x.task_count = c := by omega
        simp [List.filter_cons, hy, hx, ih]
      · simp [List.filter_cons, hy, ih]

theorem sortDesc_filter_count (l : List AgentSuggestion) (c : Nat) :
    (sortDesc l).filter (fun s => s.task_count = c) =
      l.filter (fun s => s.task_count = c) := by
  induction l with
  | nil => rfl
  | cons x xs ih =>
    rw [sortDesc, insertDesc_filter_count]
    by_cases hx : x.task_count = c
    · simp [List.filter_cons, hx, ih]
    · simp [List.filter_cons, hx, ih]

theorem baseSuggestions_fields (tasks : List STask) :
    ∀ s ∈ baseSuggestions tasks,
      s.task_count = typeCount tasks s.agent_type ∧ 3 ≤ s.task_count ∧
      s.priority = (if 5 ≤ s.task_count then "high" else "medium") := by
  intro s hs
  rw [baseSuggestions] at hs
  obtain ⟨t, _, hf⟩ := List.mem_filterMap.mp hs
  by_cases hcnt : 3 ≤ typeCount tasks t
  · rw [if_pos hcnt, Option.some.injEq] at hf
    subst hf
    exact ⟨rfl, hcnt, rfl⟩
  · rw [if_neg hcnt] at hf
    exact absurd hf (Option.noConfusion)

/-- C8 counterexample: with three `data-agent` tasks followed by three
`ui-agent` tasks (a tie at count 3), the suggestions come out in
first-occurrence order `data-agent, ui-agent`, not in the catalog order
`ui-agent, data-agent` the claim requires. -/
theorem task_suggestions_tie_order_counterexample :
    ((analyzeTaskPatterns
        [ { description := "design schema", agent_type := some "data-agent",
            estimated_points := some 2 },
          { description := "implement storage", agent_type := some "data-agent",
            estimated_points := some 3 },
          { description := "sync data", agent_type := some "data-agent",
            estimated_points := some 2 },
          { description := "build screen", agent_type := some "ui-agent",
            estimated_points := some 2 },
          { description := "style component", agent_type := some "ui-agent",
            estimated_points := some 1 },
          { description := "layout view", agent_type := some "ui-agent",
            estimated_points := some 2 } ]).suggestions.map AgentSuggestion.agent_type) =
      ["data-agent", "ui-agent"] ∧
    ["data-agent", "ui-agent"] ≠ ["ui-agent", "data-agent"] := by
  refine ⟨by decide, by decide⟩

/-- C8 (amended): Specialization analysis proposes a suggestion for exactly
those agent_types occurring among the tasks with task count at least 3,
records the exact count, assigns priority `high` iff the count is at least 5
and `medium` otherwise, and returns the proposals sorted by task count
descending with ties broken by the order of first occurrence of the
agent_type in the task list (stability: for every count, the equal-count
suggestions appear in the pre-sort first-occurrence order). -/
theorem task_suggestions_characterization (tasks : List STask) :
    (∀ t : String,
      (∃ s ∈ (analyzeTaskPatterns tasks).suggestions, s.agent_type = t) ↔
        (3 ≤ typeCount tasks t ∧ t ∈ tasks.map taskType)) ∧
    (∀ s ∈ (analyzeTaskPatterns tasks).suggestions,
      s.task_count = typeCount tasks s.agent_type ∧ 3 ≤ s.task_count ∧
      s.priority = (if 5 ≤ s.task_count then "high" else "medium")) ∧
    List.Pairwise (fun a b => b.task_count ≤ a.task_count)
      (analyzeTaskPatterns tasks).suggestions ∧
    (∀ c : Nat,
      ((analyzeTaskPatterns tasks).suggestions).filter (fun s => s.task_count = c) =
        (baseSuggestions tasks).filter (fun s => s.task_count = c)) := by
  refine ⟨?_, ?_, ?_, ?_⟩
  · intro t
    constructor
    · rintro ⟨s, hs, rfl⟩
      have hsb : s ∈ baseSuggestions tasks := (mem_sortDesc s _).mp hs
      rw [baseSuggestions] at hsb
      obtain ⟨t', ht', hf⟩ := List.mem_filterMap.mp hsb
      by_cases hcnt : 3 ≤ typeCount tasks t'
      · rw [if_pos hcnt, Option.some.injEq] at hf
        subst hf
        exact ⟨hcnt, (mem_keepFirst t' _).mp ht'⟩
      · rw [if_neg hcnt] at hf
        exact absurd hf (Option.noConfusion)
    · rintro ⟨hcnt, hmem⟩
      refine ⟨mkSuggestion tasks t, ?_, rfl⟩
      rw [show (analyzeTaskPatterns tasks).suggestions = sortDesc (baseSuggestions tasks)
        from rfl, mem_sortDesc, baseSuggestions]
      exact List.mem_filterMap.mpr ⟨t, (mem_keepFirst t _).mpr hmem, by rw [if_pos hcnt]⟩
  · intro s hs
    exact baseSuggestions_fields tasks s ((mem_sortDesc s _).mp hs)
  · exact sorted_sortDesc _
  · intro c
    exact sortDesc_filter_count _ c

/-- Instantiation of the amended task-suggestion theorem: four test-agent
tasks are enough for a suggestion to appear. -/
theorem task_suggestions_characterization_app :
    ∃ s ∈ (analyzeTaskPatterns
      [ { description := "write unit tests", agent_type := some "test-agent",
          estimated_points := some 2 },
        { description := "integration tests", agent_type := some "test-agent",
          estimated_points := some 3 },
        { description := "offline tests", agent_type := some "test-agent",
          estimated_points := some 2 },
        { description := "device tests", agent_type := some "test-agent",
          estimated_points := none } ]).suggestions, s.agent_type = "test-agent" :=
  ((task_suggestions_characterization _).1 "test-agent").mpr (by decide)

end Ezansi
